import Mathlib

/-!
Shallow embedding of `blocks.go` from cdreier/strapi-blocks-go-renderer.

Go `*T` pointer fields become `Option T`; dereferencing a `nil` pointer
(a Go panic) is modelled by returning `none`, which propagates through the
render so that a whole render that would panic is `none`.
-/

/-- The `Image` struct at blocks.go:42-46. -/
structure Image where
  name : String
  alternativeText : String
  url : String
deriving DecidableEq

/-- The `Block` struct at blocks.go:27-40. Field order follows the source:
`Type`, `Children`, `Text`, `Italic`, `Underline`, `Bold`, `StrikeThrough`,
`Code`, `Format`, `URL`, `Level`, `Image`. Pointer fields are `Option`s. -/
inductive Block where
  | mk (type : String) (children : List Block) (text : Option String)
       (italic underline bold strikeThrough code : Option Bool)
       (format url : Option String) (level : Option Int) (image : Option Image)

def Block.type : Block → String
  | .mk t _ _ _ _ _ _ _ _ _ _ _ => t

def Block.children : Block → List Block
  | .mk _ c _ _ _ _ _ _ _ _ _ _ => c

def Block.text : Block → Option String
  | .mk _ _ t _ _ _ _ _ _ _ _ _ => t

def Block.level : Block → Option Int
  | .mk _ _ _ _ _ _ _ _ _ _ l _ => l

def Block.image : Block → Option Image
  | .mk _ _ _ _ _ _ _ _ _ _ _ i => i

/-- The `EmptyText` predicate at blocks.go:145-147:
`b.Type == BlockTypeText && (b.Text == nil || (b.Text != nil && *b.Text == ""))`. -/
def Block.EmptyText : Block → Bool
  | .mk ty _ text _ _ _ _ _ _ _ _ _ =>
      ty == "text" && (text == none || (text != none && text == some ""))

/-- Models the Go standard library string quoting used by the `%q` format verb
at blocks.go:214 and blocks.go:232 (an external collaborator, `fmt`/`strconv`):
each double-quote or backslash character is escaped with a backslash.
(Go additionally escapes non-printable characters, which no claim exercises.) -/
def goQuoteList : List Char → List Char
  | [] => []
  | c :: cs =>
      (if c = '"' then ['\\', '"']
       else if c = '\\' then ['\\', '\\']
       else [c]) ++ goQuoteList cs

/-- Wraps the escaped character sequence in double quotes, as Go `%q` does. -/
def goQuote (s : String) : String :=
  String.mk ('"' :: (goQuoteList s.data ++ ['"']))

/-- The `RenderText` method at blocks.go:156-174. `out := *b.Text` panics when
`Text` is `nil`, modelled as `none`; each Go condition `p != nil && *p` is
`p = some true`. The wrappers are applied in source order: bold, italic,
underline, strikethrough, code. -/
def RenderText : Block → Option String
  | .mk _ _ text italic underline bold strikeThrough code _ _ _ _ =>
      match text with
      | none => none
      | some t =>
          let out := t
          let out := if bold = some true then "<strong>" ++ out ++ "</strong>" else out
          let out := if italic = some true then "<em>" ++ out ++ "</em>" else out
          let out := if underline = some true then "<u>" ++ out ++ "</u>" else out
          let out := if strikeThrough = some true then "<del>" ++ out ++ "</del>" else out
          let out := if code = some true then "<code>" ++ out ++ "</code>" else out
          some out

/-- The `RenderImage` method at blocks.go:210-215. -/
def RenderImage : Block → Option String
  | .mk _ _ _ _ _ _ _ _ _ _ _ image =>
      match image with
      | none => some "missing image"
      | some i =>
          some ("<img src=" ++ goQuote i.url ++ " alt=" ++ goQuote i.alternativeText ++ " />")

/-- The guard condition at blocks.go:150:
`len(b.Children) == 1 && b.Children[0].EmptyText()`. -/
def isSingleEmptyText (children : List Block) : Bool :=
  match children with
  | [c] => c.EmptyText
  | _ => false

theorem sizeOf_blockList_pos (l : List Block) : 0 < sizeOf l := by
  cases l <;> simp_arith

mutual

/-- The `internalRender` method at blocks.go:113-119: concatenates the
fragments of the blocks in order (a panic anywhere aborts the whole render). -/
def internalRender : List Block → Option String
  | [] => some ""
  | b :: rest =>
      match renderBlock b with
      | none => none
      | some s =>
          match internalRender rest with
          | none => none
          | some r => some (s ++ r)
termination_by bs => sizeOf bs
decreasing_by
all_goals simp_wf
all_goals (have h := sizeOf_blockList_pos rest; omega)

/-- The `renderBlock` dispatch at blocks.go:121-143 under the default
configuration built by `New()` (every interface field delegates back to the
`Renderer` itself), case order as in the source switch. -/
def renderBlock (b : Block) : Option String :=
  if b.type = "paragraph" then RenderParagraph b
  else if b.type = "text" then RenderText b
  else if b.type = "list" then RenderList b
  else if b.type = "list-item" then RenderListItem b
  else if b.type = "heading" then RenderHeading b
  else if b.type = "link" then RenderLink b
  else if b.type = "image" then RenderImage b
  else if b.type = "quote" then RenderQuote b
  else if b.type = "code" then RenderCode b
  else some "unsupported block type"
termination_by sizeOf b + 1

/-- The `RenderParagraph` method at blocks.go:149-154. -/
def RenderParagraph : Block → Option String
  | .mk _ children _ _ _ _ _ _ _ _ _ _ =>
      if isSingleEmptyText children then some "<br />"
      else (internalRender children).map (fun s => "<p>" ++ s ++ "</p>")
termination_by b => sizeOf b

/-- The `RenderList` method at blocks.go:176-184. -/
def RenderList : Block → Option String
  | .mk _ children _ _ _ _ _ _ format _ _ _ =>
      if format = some "unordered" then
        (internalRender children).map (fun s => "<ul>" ++ s ++ "</ul>")
      else if format = some "ordered" then
        (internalRender children).map (fun s => "<ol>" ++ s ++ "</ol>")
      else some "unsupported list"
termination_by b => sizeOf b

/-- The `RenderListItem` method at blocks.go:185-187. -/
def RenderListItem : Block → Option String
  | .mk _ children _ _ _ _ _ _ _ _ _ _ =>
      (internalRender children).map (fun s => "<li>" ++ s ++ "</li>")
termination_by b => sizeOf b

/-- The `RenderHeading` method at blocks.go:188-208: `nil` level falls back to
`*b.Text` (panic when `Text` is also `nil`), levels 1-6 wrap the rendered
children, any other level falls back to `*b.Text` likewise. -/
def RenderHeading : Block → Option String
  | .mk _ children text _ _ _ _ _ _ _ level _ =>
      match level with
      | none => text
      | some l =>
          if l = 1 then (internalRender children).map (fun s => "<h1>" ++ s ++ "</h1>")
          else if l = 2 then (internalRender children).map (fun s => "<h2>" ++ s ++ "</h2>")
          else if l = 3 then (internalRender children).map (fun s => "<h3>" ++ s ++ "</h3>")
          else if l = 4 then (internalRender children).map (fun s => "<h4>" ++ s ++ "</h4>")
          else if l = 5 then (internalRender children).map (fun s => "<h5>" ++ s ++ "</h5>")
          else if l = 6 then (internalRender children).map (fun s => "<h6>" ++ s ++ "</h6>")
          else text
termination_by b => sizeOf b

/-- The `RenderCode` method at blocks.go:217-220. -/
def RenderCode : Block → Option String
  | .mk _ children _ _ _ _ _ _ _ _ _ _ =>
      (internalRender children).map (fun s => "<pre><code>" ++ s ++ "</code></pre>")
termination_by b => sizeOf b

/-- The `RenderQuote` method at blocks.go:222-224. -/
def RenderQuote : Block → Option String
  | .mk _ children _ _ _ _ _ _ _ _ _ _ =>
      (internalRender children).map (fun s => "<blockquote>" ++ s ++ "</blockquote>")
termination_by b => sizeOf b

/-- The `RenderLink` method at blocks.go:226-233: `href` is the `url` field
when present, else the placeholder `#`. -/
def RenderLink : Block → Option String
  | .mk _ children _ _ _ _ _ _ _ url _ _ =>
      let u := url.getD "#"
      (internalRender children).map (fun s => "<a href=" ++ goQuote u ++ ">" ++ s ++ "</a>")
termination_by b => sizeOf b

end

/-- Conditionally wraps a fragment in a fixed open/close tag pair, the shape of
each `if`-guarded `fmt.Sprintf` wrapper inside `RenderText`. -/
def wrapIf (flag : Option Bool) (openTag closeTag s : String) : String :=
  if flag = some true then openTag ++ s ++ closeTag else s

/-- C1 (amended): for every text node with any subset of the five formatting
flags set, the wrappers nest in the fixed order code outermost and bold
innermost (code ⊃ strikethrough ⊃ underline ⊃ italic ⊃ bold), regardless of
which subset is set. -/
theorem text_formatting_nesting_order (ty : String) (ch : List Block)
    (t : String) (fi fu fb fs fc : Option Bool) (fmt url : Option String)
    (lvl : Option Int) (img : Option Image) :
    RenderText (.mk ty ch (some t) fi fu fb fs fc fmt url lvl img)
      = some (wrapIf fc "<code>" "</code>"
          (wrapIf fs "<del>" "</del>"
            (wrapIf fu "<u>" "</u>"
              (wrapIf fi "<em>" "</em>"
                (wrapIf fb "<strong>" "</strong>" t))))) := rfl

/-- C1 (counterexample): a text node with bold and italic both set renders with
the italic wrapper outermost and the bold wrapper innermost, not bold
outermost as the claim states. -/
theorem text_formatting_bold_not_outermost :
    RenderText (.mk "text" [] (some "x") (some true) none (some true) none none
        none none none none)
      = some "<em><strong>x</strong></em>" ∧
    RenderText (.mk "text" [] (some "x") (some true) none (some true) none none
        none none none none)
      ≠ some "<strong><em>x</em></strong>" := by decide

/-- C3: a paragraph node whose sole child is an empty text node renders exactly
as `<br />`; otherwise it renders its children wrapped in `<p>...</p>`; and the
guard holds precisely when there is exactly one child and it is a text node
with absent or empty text. -/
theorem paragraph_empty_text_linebreak (ty : String) (children : List Block)
    (text : Option String) (fi fu fb fs fc : Option Bool) (fmt url : Option String)
    (lvl : Option Int) (img : Option Image) :
    (isSingleEmptyText children = true →
        RenderParagraph (.mk ty children text fi fu fb fs fc fmt url lvl img)
          = some "<br />") ∧
    (isSingleEmptyText children = false →
        RenderParagraph (.mk ty children text fi fu fb fs fc fmt url lvl img)
          = (internalRender children).map (fun s => "<p>" ++ s ++ "</p>")) ∧
    (isSingleEmptyText children = true ↔ ∃ c, children = [c] ∧ c.EmptyText = true) := by
  refine ⟨fun h => by simp [RenderParagraph, h], fun h => by simp [RenderParagraph, h], ?_⟩
  match children with
  | [] => simp [isSingleEmptyText]
  | [c] => simp [isSingleEmptyText]
  | c₁ :: c₂ :: rest => simp [isSingleEmptyText]

theorem paragraph_empty_text_linebreak_witness :
    RenderParagraph (.mk "paragraph"
        [.mk "text" [] (some "") none none none none none none none none none]
        none none none none none none none none none none) = some "<br />" :=
  (paragraph_empty_text_linebreak "paragraph"
      [.mk "text" [] (some "") none none none none none none none none none]
      none none none none none none none none none none).1 (by decide)

/-- C4: a heading node with level 1-6 wraps its rendered children in the
matching heading element; with level absent or outside 1-6 it falls back to
the raw `text` field with no wrapper. -/
theorem heading_level_dispatch (ty : String) (children : List Block)
    (text : Option String) (fi fu fb fs fc : Option Bool) (fmt url : Option String)
    (lvl : Option Int) (img : Option Image) :
    (lvl = none →
        RenderHeading (.mk ty children text fi fu fb fs fc fmt url lvl img) = text) ∧
    (∀ l : Int, lvl = some l → 1 ≤ l → l ≤ 6 →
        RenderHeading (.mk ty children text fi fu fb fs fc fmt url lvl img)
          = (internalRender children).map
              (fun s => "<h" ++ toString l ++ ">" ++ s ++ "</h" ++ toString l ++ ">")) ∧
    (∀ l : Int, lvl = some l → (l < 1 ∨ 6 < l) →
        RenderHeading (.mk ty children text fi fu fb fs fc fmt url lvl img) = text) := by
  refine ⟨fun h => by simp [RenderHeading, h], fun l hl h1 h6 => ?_, fun l hl hout => ?_⟩
  · subst hl
    have t1 : toString (1:Int) = "1" := rfl
    have t2 : toString (2:Int) = "2" := rfl
    have t3 : toString (3:Int) = "3" := rfl
    have t4 : toString (4:Int) = "4" := rfl
    have t5 : toString (5:Int) = "5" := rfl
    have t6 : toString (6:Int) = "6" := rfl
    interval_cases l <;>
      simp [RenderHeading, t1, t2, t3, t4, t5, t6, String.append_assoc]
  · subst hl
    have h1 : l ≠ 1 := by omega
    have h2 : l ≠ 2 := by omega
    have h3 : l ≠ 3 := by omega
    have h4 : l ≠ 4 := by omega
    have h5 : l ≠ 5 := by omega
    have h6 : l ≠ 6 := by omega
    simp [RenderHeading, h1, h2, h3, h4, h5, h6]

theorem heading_level_dispatch_witness :
    RenderHeading (.mk "heading"
        [.mk "text" [] (some "hi") none none none none none none none none none]
        (some "raw") none none none none none none none (some 2) none)
      = (internalRender
          [.mk "text" [] (some "hi") none none none none none none none none none]).map
          (fun s => "<h" ++ toString (2:Int) ++ ">" ++ s ++ "</h" ++ toString (2:Int) ++ ">") :=
  (heading_level_dispatch "heading"
      [.mk "text" [] (some "hi") none none none none none none none none none]
      (some "raw") none none none none none none none (some 2) none).2.1 2 rfl
    (by decide) (by decide)

/-- Characterization of the quoting model: a string with no double-quote and no
backslash characters is quoted verbatim between double quotes. -/
theorem goQuoteList_eq_self (cs : List Char)
    (h : ∀ c ∈ cs, c ≠ '"' ∧ c ≠ '\\') : goQuoteList cs = cs := by
  induction cs with
  | nil => rfl
  | cons c rest ih =>
      have hc := h c (by simp)
      simp [goQuoteList, hc.1, hc.2, ih (fun d hd => h d (by simp [hd]))]

theorem goQuote_plain (s : String) (h : ∀ c ∈ s.data, c ≠ '"' ∧ c ≠ '\\') :
    goQuote s = "\"" ++ s ++ "\"" := by
  obtain ⟨d⟩ := s
  rw [goQuote]
  show String.mk ('"' :: (goQuoteList d ++ ['"'])) = String.mk ((['"'] ++ d) ++ ['"'])
  rw [goQuoteList_eq_self d h]
  simp

/-- C5: a list node renders an unordered-list wrapper for format `unordered`,
an ordered-list wrapper for format `ordered`, and the literal diagnostic
`unsupported list` for any other format value, including absent. -/
theorem list_format_dispatch (ty : String) (children : List Block)
    (text : Option String) (fi fu fb fs fc : Option Bool) (fmt url : Option String)
    (lvl : Option Int) (img : Option Image) :
    (fmt = some "unordered" →
        RenderList (.mk ty children text fi fu fb fs fc fmt url lvl img)
          = (internalRender children).map (fun s => "<ul>" ++ s ++ "</ul>")) ∧
    (fmt = some "ordered" →
        RenderList (.mk ty children text fi fu fb fs fc fmt url lvl img)
          = (internalRender children).map (fun s => "<ol>" ++ s ++ "</ol>")) ∧
    (fmt ≠ some "unordered" → fmt ≠ some "ordered" →
        RenderList (.mk ty children text fi fu fb fs fc fmt url lvl img)
          = some "unsupported list") := by
  refine ⟨fun h => by simp [RenderList, h], fun h => by simp [RenderList, h],
    fun h1 h2 => by simp [RenderList, h1, h2]⟩

theorem list_format_dispatch_witness :
    RenderList (.mk "list" [] none none none none none none none none none none)
      = some "unsupported list" :=
  (list_format_dispatch "list" [] none none none none none none none none none
      none).2.2 (by decide) (by decide)

/-- C6: an image node without a payload renders the literal diagnostic
`missing image`; with a payload it renders a self-closing `img` element whose
`src` and `alt` attributes carry the payload's url and alternative text under
the quoting of Go's `%q` verb, which escapes quote characters. -/
theorem image_rendering (ty : String) (children : List Block)
    (text : Option String) (fi fu fb fs fc : Option Bool) (fmt url : Option String)
    (lvl : Option Int) (img : Option Image) :
    (img = none →
        RenderImage (.mk ty children text fi fu fb fs fc fmt url lvl img)
          = some "missing image") ∧
    (∀ i : Image, img = some i →
        RenderImage (.mk ty children text fi fu fb fs fc fmt url lvl img)
          = some ("<img src=" ++ goQuote i.url ++ " alt=" ++ goQuote i.alternativeText
              ++ " />")) ∧
    (∀ s : String, (∀ c ∈ s.data, c ≠ '"' ∧ c ≠ '\\') →
        goQuote s = "\"" ++ s ++ "\"") := by
  refine ⟨fun h => by simp [RenderImage, h], fun i h => by simp [RenderImage, h],
    goQuote_plain⟩

theorem image_rendering_witness :
    RenderImage (.mk "image" [] none none none none none none none none none
        (some ⟨"n", "a", "u"⟩))
      = some ("<img src=" ++ goQuote "u" ++ " alt=" ++ goQuote "a" ++ " />") ∧
    goQuote "u" = "\"u\"" :=
  ⟨(image_rendering "image" [] none none none none none none none none none
      (some ⟨"n", "a", "u"⟩)).2.1 ⟨"n", "a", "u"⟩ rfl,
   by
    have h := (image_rendering "image" [] none none none none none none none none
        none (some ⟨"n", "a", "u"⟩)).2.2 "u" (by decide)
    simpa using h⟩

/-- C9: rendering a text node dereferences the required text field: it fails
(Go panic, modelled as `none`) exactly when the text payload is absent, so
under the precondition that the text payload is present this failure cannot
occur; the failure propagates through the dispatch for a `text`-typed node. -/
theorem text_nil_deref_fail_fast (ty : String) (children : List Block)
    (text : Option String) (fi fu fb fs fc : Option Bool) (fmt url : Option String)
    (lvl : Option Int) (img : Option Image) :
    (RenderText (.mk ty children text fi fu fb fs fc fmt url lvl img) = none
        ↔ text = none) ∧
    (ty = "text" → text = none →
        renderBlock (.mk ty children text fi fu fb fs fc fmt url lvl img) = none) := by
  constructor
  · cases text <;> simp [RenderText]
  · intro hty htext
    subst hty
    subst htext
    simp [renderBlock, Block.type, RenderText]

theorem text_nil_deref_fail_fast_witness :
    renderBlock (.mk "text" [] none none none none none none none none none none)
      = none :=
  (text_nil_deref_fail_fast "text" [] none none none none none none none none none
      none).2 rfl rfl

/-- C10: the heading fallback path dereferences the text payload: for a heading
node whose level is absent or outside 1-6, rendering fails (Go nil-pointer
panic, modelled as `none`) exactly when the text field is absent. -/
theorem heading_fallback_text_deref (ty : String) (children : List Block)
    (text : Option String) (fi fu fb fs fc : Option Bool) (fmt url : Option String)
    (lvl : Option Int) (img : Option Image) :
    (ty = "heading" → lvl = none →
        (renderBlock (.mk ty children text fi fu fb fs fc fmt url lvl img) = none
          ↔ text = none)) ∧
    (ty = "heading" → ∀ l : Int, lvl = some l → (l < 1 ∨ 6 < l) →
        (renderBlock (.mk ty children text fi fu fb fs fc fmt url lvl img) = none
          ↔ text = none)) := by
  constructor
  · intro hty hlvl
    subst hty; subst hlvl
    cases text <;> simp [renderBlock, Block.type, RenderHeading]
  · intro hty l hlvl hout
    subst hty; subst hlvl
    have h1 : l ≠ 1 := by omega
    have h2 : l ≠ 2 := by omega
    have h3 : l ≠ 3 := by omega
    have h4 : l ≠ 4 := by omega
    have h5 : l ≠ 5 := by omega
    have h6 : l ≠ 6 := by omega
    cases text <;> simp [renderBlock, Block.type, RenderHeading, h1, h2, h3, h4, h5, h6]

theorem heading_fallback_text_deref_witness :
    renderBlock (.mk "heading" [] none none none none none none none none (some 7)
        none) = none ∧ (none : Option String) = none :=
  ⟨((heading_fallback_text_deref "heading" [] none none none none none none none
      none (some 7) none).2 rfl 7 rfl (by omega)).mpr rfl, rfl⟩

theorem internalRender_nil : internalRender [] = some "" := by
  simp [internalRender]

theorem internalRender_cons (b : Block) (rest : List Block) :
    internalRender (b :: rest)
      = (renderBlock b).bind (fun s => (internalRender rest).map (fun r => s ++ r)) := by
  cases hb : renderBlock b <;> cases hr : internalRender rest <;>
    simp [internalRender, hb, hr]

theorem internalRender_singleton (b : Block) : internalRender [b] = renderBlock b := by
  rw [internalRender_cons]
  cases renderBlock b <;> simp [internalRender_nil]

theorem internalRender_append (xs ys : List Block) :
    internalRender (xs ++ ys)
      = (internalRender xs).bind (fun a => (internalRender ys).map (fun c => a ++ c)) := by
  induction xs with
  | nil =>
      rw [List.nil_append, internalRender_nil]
      cases h : internalRender ys <;> simp [h, String.empty_append]
  | cons b rest ih =>
      rw [List.cons_append, internalRender_cons, internalRender_cons, ih]
      cases renderBlock b <;> cases internalRender rest <;> cases internalRender ys <;>
        simp [String.append_assoc]

/-- C7: a node whose type is none of the nine recognized discriminants renders
as the literal diagnostic `unsupported block type`, and in any surrounding
sequence the remaining siblings are still rendered normally. -/
theorem unknown_type_diagnostic (b : Block)
    (h : b.type ∉ (["paragraph", "text", "list", "list-item", "heading", "link",
        "image", "quote", "code"] : List String)) :
    renderBlock b = some "unsupported block type" ∧
    ∀ pre post : List Block,
      internalRender (pre ++ b :: post)
        = (internalRender pre).bind
            (fun s1 => (internalRender post).map
              (fun s2 => s1 ++ "unsupported block type" ++ s2)) := by
  simp only [List.mem_cons, List.mem_singleton, not_or] at h
  obtain ⟨h1, h2, h3, h4, h5, h6, h7, h8, h9⟩ := h
  have hb : renderBlock b = some "unsupported block type" := by
    simp [renderBlock, h1, h2, h3, h4, h5, h6, h7, h8, h9]
  refine ⟨hb, fun pre post => ?_⟩
  rw [internalRender_append, internalRender_cons, hb]
  cases internalRender pre <;> cases internalRender post <;>
    simp [String.append_assoc]

theorem unknown_type_diagnostic_witness :
    renderBlock (.mk "video" [] none none none none none none none none none none)
      = some "unsupported block type" :=
  (unknown_type_diagnostic
    (.mk "video" [] none none none none none none none none none none)
    (by decide)).1

/-- C8: rendering is deterministic (a pure function of the input tree) and
order-preserving: the render of a sequence is the in-order concatenation of
each node's independent render, with no state carried across nodes. -/
theorem render_deterministic_and_concat :
    (∀ bs bs' : List Block, bs = bs' → internalRender bs = internalRender bs') ∧
    (∀ b : Block, internalRender [b] = renderBlock b) ∧
    (∀ xs ys : List Block,
        internalRender (xs ++ ys)
          = (internalRender xs).bind
              (fun a => (internalRender ys).map (fun c => a ++ c))) :=
  ⟨fun _ _ hEq => hEq ▸ rfl, internalRender_singleton, internalRender_append⟩

theorem render_deterministic_and_concat_witness :
    internalRender [Block.mk "quote" [] none none none none none none none none none none]
      = internalRender [Block.mk "quote" [] none none none none none none none none none none] ∧
    internalRender
        ([Block.mk "quote" [] none none none none none none none none none none]
          ++ [Block.mk "code" [] none none none none none none none none none none])
      = (internalRender [Block.mk "quote" [] none none none none none none none none none none]).bind
          (fun a =>
            (internalRender [Block.mk "code" [] none none none none none none none none none none]).map
              (fun c => a ++ c)) :=
  ⟨render_deterministic_and_concat.1 _ _ rfl,
   render_deterministic_and_concat.2.2 _ _⟩

/-- Modelled from the spec: "The render engine must produce well-formed HTML
(balanced tags)". Scanner state over the output string: `dead` marks a
detected violation, `tagBuf` holds the reversed characters of a tag currently
being read (`none` while in running text), `stack` holds the names of the
currently open elements. -/
structure ScanState where
  dead : Bool
  tagBuf : Option (List Char)
  stack : List String
deriving DecidableEq

/-- Name of a tag: its content up to the first space (dropping attributes). -/
def tagNameOf (content : List Char) : String :=
  String.mk (content.takeWhile (fun c => c != ' '))

/-- Handles a completed tag whose content between `<` and `>` is `content`: a
leading slash closes the innermost open element (a name mismatch or an empty
stack is a violation), a trailing slash is a self-closing element, anything
else opens an element. -/
def finishTag (st : ScanState) (content : List Char) : ScanState :=
  if content.head? = some '/' then
    match st.stack with
    | [] => { st with dead := true }
    | t :: ts =>
        if t = tagNameOf content.tail then { dead := false, tagBuf := none, stack := ts }
        else { st with dead := true }
  else if content.getLast? = some '/' then { dead := false, tagBuf := none, stack := st.stack }
  else { dead := false, tagBuf := none, stack := tagNameOf content :: st.stack }

/-- One scanner transition per character. -/
def scanStep (st : ScanState) (c : Char) : ScanState :=
  if st.dead then st
  else
    match st.tagBuf with
    | none => if c = '<' then { st with tagBuf := some [] } else st
    | some buf =>
        if c = '>' then finishTag st buf.reverse
        else { st with tagBuf := some (c :: buf) }

def scanChars (st : ScanState) : List Char → ScanState
  | [] => st
  | c :: cs => scanChars (scanStep st c) cs

/-- Modelled from the spec: a string is well-formed HTML with balanced tags
when scanning it from the empty state hits no violation, finishes every tag it
starts, and closes every element it opens. -/
def wellFormedHTML (s : String) : Prop :=
  scanChars ⟨false, none, []⟩ s.data = ⟨false, none, []⟩

instance (s : String) : Decidable (wellFormedHTML s) := by
  unfold wellFormedHTML; infer_instance

/-- A fragment is neutral when scanning it in text mode leaves every
open-element stack unchanged: it is a balanced run of text and complete
elements, so it is well-formed in any context. -/
def NeutralFrag (s : String) : Prop :=
  ∀ σ : List String, scanChars ⟨false, none, σ⟩ s.data = ⟨false, none, σ⟩

theorem wellFormedHTML_of_neutralFrag (s : String) (h : NeutralFrag s) :
    wellFormedHTML s := h []

theorem scanChars_append (as bs : List Char) :
    ∀ st : ScanState, scanChars st (as ++ bs) = scanChars (scanChars st as) bs := by
  induction as with
  | nil => intro st; rfl
  | cons c rest ih => intro st; rw [List.cons_append, scanChars, scanChars, ih]

theorem neutralFrag_append (s t : String) (hs : NeutralFrag s) (ht : NeutralFrag t) :
    NeutralFrag (s ++ t) := by
  intro σ
  rw [String.data_append, scanChars_append, hs σ, ht σ]

theorem scanChars_text (cs : List Char) (h : ∀ c ∈ cs, c ≠ '<') :
    ∀ σ : List String, scanChars ⟨false, none, σ⟩ cs = ⟨false, none, σ⟩ := by
  induction cs with
  | nil => intro σ; rfl
  | cons c rest ih =>
      intro σ
      have hc : c ≠ '<' := h c (by simp)
      rw [scanChars, show scanStep ⟨false, none, σ⟩ c = ⟨false, none, σ⟩ from by
        simp [scanStep, hc]]
      exact ih (fun d hd => h d (by simp [hd])) σ

theorem neutralFrag_of_noLT (s : String) (h : ∀ c ∈ s.data, c ≠ '<') :
    NeutralFrag s :=
  fun σ => scanChars_text s.data h σ

theorem scanChars_tagAccum (cs : List Char) (h : ∀ c ∈ cs, c ≠ '>') :
    ∀ (buf : List Char) (σ : List String),
      scanChars ⟨false, some buf, σ⟩ cs = ⟨false, some (cs.reverse ++ buf), σ⟩ := by
  induction cs with
  | nil => intro buf σ; simp [scanChars]
  | cons c rest ih =>
      intro buf σ
      have hc : c ≠ '>' := h c (by simp)
      rw [scanChars, show scanStep ⟨false, some buf, σ⟩ c = ⟨false, some (c :: buf), σ⟩ from by
        simp [scanStep, hc]]
      rw [ih (fun d hd => h d (by simp [hd])) (c :: buf) σ]
      simp

/-- A fragment of the shape open-prefix, body, close-suffix is neutral when the
prefix pushes a fixed group of elements onto any stack and the suffix pops
exactly that group. -/
theorem neutralFrag_wrapStack (openS closeS s : String) (δ : List String)
    (hopen : ∀ σ, scanChars ⟨false, none, σ⟩ openS.data = ⟨false, none, δ ++ σ⟩)
    (hclose : ∀ σ, scanChars ⟨false, none, δ ++ σ⟩ closeS.data = ⟨false, none, σ⟩)
    (hs : NeutralFrag s) : NeutralFrag (openS ++ s ++ closeS) := by
  intro σ
  rw [String.data_append, String.data_append, scanChars_append, scanChars_append,
    hopen σ, hs (δ ++ σ), hclose σ]

theorem goQuote_data (s : String) :
    (goQuote s).data = '"' :: (goQuoteList s.data ++ ['"']) := rfl

theorem goQuoteList_mem (cs : List Char) (c : Char) (h : c ∈ goQuoteList cs) :
    c = '\\' ∨ c = '"' ∨ c ∈ cs := by
  induction cs with
  | nil => simp [goQuoteList] at h
  | cons d rest ih =>
      rw [goQuoteList] at h
      rcases List.mem_append.mp h with h1 | h2
      · by_cases hd : d = '"'
        · simp [hd] at h1
          rcases h1 with h1 | h1
          · exact Or.inl h1
          · exact Or.inr (Or.inl h1)
        · by_cases hd2 : d = '\\'
          · simp [hd, hd2] at h1
            exact Or.inl h1
          · simp [hd, hd2] at h1
            exact Or.inr (Or.inr (by simp [h1]))
      · rcases ih h2 with h | h | h
        · exact Or.inl h
        · exact Or.inr (Or.inl h)
        · exact Or.inr (Or.inr (by simp [h]))

theorem goQuote_mem_ne_gt (u : String) (hu : ∀ c ∈ u.data, c ≠ '>') :
    ∀ c ∈ (goQuote u).data, c ≠ '>' := by
  intro c hc
  rw [goQuote_data] at hc
  simp at hc
  rcases hc with rfl | hc | rfl
  · decide
  · rcases goQuoteList_mem u.data c hc with rfl | rfl | h
    · decide
    · decide
    · exact hu c h
  · decide

theorem goQuote_ne_nil (u : String) : (goQuote u).data ≠ [] := by
  rw [goQuote_data]; simp

theorem goQuote_getLast (u : String) : (goQuote u).data.getLast? = some '"' := by
  rw [goQuote_data,
    show '"' :: (goQuoteList u.data ++ ['"']) = ('"' :: goQuoteList u.data) ++ ['"'] from rfl]
  exact List.getLast?_concat _

theorem scan_tag_generic (content : List Char) (σ : List String)
    (hngt : ∀ c ∈ content, c ≠ '>') :
    scanChars ⟨false, none, σ⟩ ('<' :: (content ++ ['>']))
      = finishTag ⟨false, some content.reverse, σ⟩ content := by
  rw [scanChars, show scanStep ⟨false, none, σ⟩ '<' = ⟨false, some [], σ⟩ from rfl,
    scanChars_append, scanChars_tagAccum content hngt [] σ]
  rw [scanChars, scanChars]
  show scanStep ⟨false, some (content.reverse ++ []), σ⟩ '>'
      = finishTag ⟨false, some content.reverse, σ⟩ content
  simp [scanStep]

theorem scan_open_content (content : List Char) (σ : List String)
    (hngt : ∀ c ∈ content, c ≠ '>')
    (hhead : content.head? ≠ some '/')
    (hlast : content.getLast? ≠ some '/') :
    scanChars ⟨false, none, σ⟩ ('<' :: (content ++ ['>']))
      = ⟨false, none, tagNameOf content :: σ⟩ := by
  rw [scan_tag_generic content σ hngt]
  simp [finishTag, hhead, hlast]

theorem scan_selfclose_content (content : List Char) (σ : List String)
    (hngt : ∀ c ∈ content, c ≠ '>')
    (hhead : content.head? ≠ some '/')
    (hlast : content.getLast? = some '/') :
    scanChars ⟨false, none, σ⟩ ('<' :: (content ++ ['>'])) = ⟨false, none, σ⟩ := by
  rw [scan_tag_generic content σ hngt]
  simp [finishTag, hhead, hlast]

theorem scan_open_link (u : String) (hu : ∀ c ∈ u.data, c ≠ '>') (σ : List String) :
    scanChars ⟨false, none, σ⟩ (("<a href=" ++ goQuote u) ++ ">").data
      = ⟨false, none, ["a"] ++ σ⟩ := by
  have hdata : (("<a href=" ++ goQuote u) ++ ">").data
      = '<' :: ((['a', ' ', 'h', 'r', 'e', 'f', '='] ++ (goQuote u).data) ++ ['>']) := by
    rw [String.data_append, String.data_append]
    simp
  have hngt : ∀ c ∈ ['a', ' ', 'h', 'r', 'e', 'f', '='] ++ (goQuote u).data, c ≠ '>' := by
    intro c hc
    rcases List.mem_append.mp hc with h | h
    · simp at h
      rcases h with rfl | rfl | rfl | rfl | rfl | rfl | rfl <;> decide
    · exact goQuote_mem_ne_gt u hu c h
  have hhead : (['a', ' ', 'h', 'r', 'e', 'f', '='] ++ (goQuote u).data).head? ≠ some '/' := by
    simp
  have hlast : (['a', ' ', 'h', 'r', 'e', 'f', '='] ++ (goQuote u).data).getLast? ≠ some '/' := by
    rw [List.getLast?_append_of_ne_nil _ (goQuote_ne_nil u), goQuote_getLast]
    decide
  rw [hdata, scan_open_content _ σ hngt hhead hlast]
  have hname : tagNameOf (['a', ' ', 'h', 'r', 'e', 'f', '='] ++ (goQuote u).data) = "a" := by
    simp [tagNameOf, List.takeWhile_cons]
  rw [hname]
  rfl

theorem neutralFrag_img (u a : String) (hu : ∀ c ∈ u.data, c ≠ '>')
    (ha : ∀ c ∈ a.data, c ≠ '>') :
    NeutralFrag (((("<img src=" ++ goQuote u) ++ " alt=") ++ goQuote a) ++ " />") := by
  intro σ
  have hdata : (((("<img src=" ++ goQuote u) ++ " alt=") ++ goQuote a) ++ " />").data
      = '<' :: ((['i', 'm', 'g', ' ', 's', 'r', 'c', '='] ++ ((goQuote u).data
          ++ ([' ', 'a', 'l', 't', '='] ++ ((goQuote a).data ++ [' ', '/'])))) ++ ['>']) := by
    rw [String.data_append, String.data_append, String.data_append, String.data_append]
    simp
  have hngt : ∀ c ∈ ['i', 'm', 'g', ' ', 's', 'r', 'c', '='] ++ ((goQuote u).data
      ++ ([' ', 'a', 'l', 't', '='] ++ ((goQuote a).data ++ [' ', '/']))), c ≠ '>' := by
    intro c hc
    rcases List.mem_append.mp hc with h | h
    · simp at h
      rcases h with rfl | rfl | rfl | rfl | rfl | rfl | rfl | rfl <;> decide
    · rcases List.mem_append.mp h with h | h
      · exact goQuote_mem_ne_gt u hu c h
      · rcases List.mem_append.mp h with h | h
        · simp at h
          rcases h with rfl | rfl | rfl | rfl | rfl <;> decide
        · rcases List.mem_append.mp h with h | h
          · exact goQuote_mem_ne_gt a ha c h
          · simp at h
            rcases h with rfl | rfl <;> decide
  have hhead : (['i', 'm', 'g', ' ', 's', 'r', 'c', '='] ++ ((goQuote u).data
      ++ ([' ', 'a', 'l', 't', '='] ++ ((goQuote a).data ++ [' ', '/'])))).head? ≠ some '/' := by
    simp
  have hlast : (['i', 'm', 'g', ' ', 's', 'r', 'c', '='] ++ ((goQuote u).data
      ++ ([' ', 'a', 'l', 't', '='] ++ ((goQuote a).data ++ [' ', '/'])))).getLast? = some '/' := by
    rw [List.getLast?_append_of_ne_nil _ (by simp),
      List.getLast?_append_of_ne_nil _ (by simp),
      List.getLast?_append_of_ne_nil _ (by simp),
      List.getLast?_append_of_ne_nil _ (by simp)]
    decide
  rw [hdata, scan_selfclose_content _ σ hngt hhead hlast]

theorem neutralFrag_link (u s : String) (hu : ∀ c ∈ u.data, c ≠ '>')
    (hs : NeutralFrag s) :
    NeutralFrag (((("<a href=" ++ goQuote u) ++ ">") ++ s) ++ "</a>") :=
  neutralFrag_wrapStack (("<a href=" ++ goQuote u) ++ ">") "</a>" s ["a"]
    (scan_open_link u hu)
    (fun σ => by simp [scanChars, scanStep, finishTag, tagNameOf]) hs

theorem neutralFrag_if_wrap (f : Option Bool) (openS closeS s : String) (δ : List String)
    (hopen : ∀ σ, scanChars ⟨false, none, σ⟩ openS.data = ⟨false, none, δ ++ σ⟩)
    (hclose : ∀ σ, scanChars ⟨false, none, δ ++ σ⟩ closeS.data = ⟨false, none, σ⟩)
    (hs : NeutralFrag s) :
    NeutralFrag (if f = some true then openS ++ s ++ closeS else s) := by
  split
  · exact neutralFrag_wrapStack openS closeS s δ hopen hclose hs
  · exact hs

/-- A string that is free of `<` and `>` characters, so it can neither start a
tag nor end one early when it appears in running text or inside a tag. -/
def strTagFree (s : String) : Bool :=
  s.data.all (fun c => c != '<' && c != '>')

def optTagFree : Option String → Bool
  | none => true
  | some s => strTagFree s

mutual

/-- Every text-like payload of the node tree (the `text` and `url` fields and
the image payload's url and alternative text) is free of `<` and `>`. -/
def blockTagFree : Block → Bool
  | .mk _ children text _ _ _ _ _ _ url _ img =>
      optTagFree text && optTagFree url &&
        (match img with
         | none => true
         | some i => strTagFree i.url && strTagFree i.alternativeText) &&
        blocksTagFree children
termination_by b => sizeOf b

def blocksTagFree : List Block → Bool
  | [] => true
  | b :: rest => blockTagFree b && blocksTagFree rest
termination_by bs => sizeOf bs

end

theorem strTagFree_no_lt (t : String) (h : strTagFree t = true) :
    ∀ c ∈ t.data, c ≠ '<' := by
  intro c hc
  rw [strTagFree] at h
  have h2 := List.all_eq_true.mp h c hc
  simp at h2
  exact h2.1

theorem strTagFree_no_gt (t : String) (h : strTagFree t = true) :
    ∀ c ∈ t.data, c ≠ '>' := by
  intro c hc
  rw [strTagFree] at h
  have h2 := List.all_eq_true.mp h c hc
  simp at h2
  exact h2.2

theorem sizeOf_block_pos (b : Block) : 0 < sizeOf b := by
  cases b; simp_arith

theorem render_tagFree_neutral (n : Nat) :
    (∀ b : Block, sizeOf b ≤ n → blockTagFree b = true →
        ∀ s : String, renderBlock b = some s → NeutralFrag s) ∧
    (∀ bs : List Block, sizeOf bs ≤ n → blocksTagFree bs = true →
        ∀ s : String, internalRender bs = some s → NeutralFrag s) := by
  induction n with
  | zero =>
      constructor
      · intro b hb
        exact absurd hb (by have := sizeOf_block_pos b; omega)
      · intro bs hbs
        exact absurd hbs (by have := sizeOf_blockList_pos bs; omega)
  | succ n ih =>
      obtain ⟨ihB, ihL⟩ := ih
      constructor
      · rintro ⟨ty, children, text, fi, fu, fb, fs, fc, fmt, url, lvl, img⟩ hsize htf s hrender
        have hchildsize : sizeOf children ≤ n := by
          simp at hsize; omega
        rw [blockTagFree.eq_def] at htf
        simp only [Bool.and_eq_true] at htf
        obtain ⟨⟨⟨htext, hurl⟩, himg⟩, hchildren⟩ := htf
        simp only [renderBlock, Block.type] at hrender
        split at hrender
        · -- paragraph
          simp only [RenderParagraph] at hrender
          split at hrender
          · simp at hrender
            subst hrender
            intro σ; rfl
          · cases hir : internalRender children with
            | none => rw [hir] at hrender; simp at hrender
            | some s' =>
                rw [hir] at hrender
                simp at hrender
                subst hrender
                exact neutralFrag_wrapStack "<p>" "</p>" s' ["p"]
                  (fun σ => by simp [scanChars, scanStep, finishTag, tagNameOf])
                  (fun σ => by simp [scanChars, scanStep, finishTag, tagNameOf])
                  (ihL children hchildsize hchildren s' hir)
        · split at hrender
          · -- text
            cases text with
            | none => simp [RenderText] at hrender
            | some t =>
                simp only [RenderText] at hrender
                simp at hrender
                subst hrender
                have h0 : NeutralFrag t :=
                  neutralFrag_of_noLT t (strTagFree_no_lt t (by simpa [optTagFree] using htext))
                exact neutralFrag_if_wrap fc "<code>" "</code>" _ ["code"]
                  (fun σ => by simp [scanChars, scanStep, finishTag, tagNameOf])
                  (fun σ => by simp [scanChars, scanStep, finishTag, tagNameOf])
                  (neutralFrag_if_wrap fs "<del>" "</del>" _ ["del"]
                    (fun σ => by simp [scanChars, scanStep, finishTag, tagNameOf])
                    (fun σ => by simp [scanChars, scanStep, finishTag, tagNameOf])
                    (neutralFrag_if_wrap fu "<u>" "</u>" _ ["u"]
                      (fun σ => by simp [scanChars, scanStep, finishTag, tagNameOf])
                      (fun σ => by simp [scanChars, scanStep, finishTag, tagNameOf])
                      (neutralFrag_if_wrap fi "<em>" "</em>" _ ["em"]
                        (fun σ => by simp [scanChars, scanStep, finishTag, tagNameOf])
                        (fun σ => by simp [scanChars, scanStep, finishTag, tagNameOf])
                        (neutralFrag_if_wrap fb "<strong>" "</strong>" t ["strong"]
                          (fun σ => by simp [scanChars, scanStep, finishTag, tagNameOf])
                          (fun σ => by simp [scanChars, scanStep, finishTag, tagNameOf])
                          h0))))
          · split at hrender
            · -- list
              simp only [RenderList] at hrender
              split at hrender
              · cases hir : internalRender children with
                | none => rw [hir] at hrender; simp at hrender
                | some s' =>
                    rw [hir] at hrender
                    simp at hrender
                    subst hrender
                    exact neutralFrag_wrapStack "<ul>" "</ul>" s' ["ul"]
                      (fun σ => by simp [scanChars, scanStep, finishTag, tagNameOf])
                      (fun σ => by simp [scanChars, scanStep, finishTag, tagNameOf])
                      (ihL children hchildsize hchildren s' hir)
              · split at hrender
                · cases hir : internalRender children with
                  | none => rw [hir] at hrender; simp at hrender
                  | some s' =>
                      rw [hir] at hrender
                      simp at hrender
                      subst hrender
                      exact neutralFrag_wrapStack "<ol>" "</ol>" s' ["ol"]
                        (fun σ => by simp [scanChars, scanStep, finishTag, tagNameOf])
                        (fun σ => by simp [scanChars, scanStep, finishTag, tagNameOf])
                        (ihL children hchildsize hchildren s' hir)
                · simp at hrender
                  subst hrender
                  intro σ
                  simp [scanChars, scanStep]
            · split at hrender
              · -- list-item
                simp only [RenderListItem] at hrender
                cases hir : internalRender children with
                | none => rw [hir] at hrender; simp at hrender
                | some s' =>
                    rw [hir] at hrender
                    simp at hrender
                    subst hrender
                    exact neutralFrag_wrapStack "<li>" "</li>" s' ["li"]
                      (fun σ => by simp [scanChars, scanStep, finishTag, tagNameOf])
                      (fun σ => by simp [scanChars, scanStep, finishTag, tagNameOf])
                      (ihL children hchildsize hchildren s' hir)
              · split at hrender
                · -- heading
                  cases lvl with
                  | none =>
                      simp only [RenderHeading] at hrender
                      subst hrender
                      exact neutralFrag_of_noLT s
                        (strTagFree_no_lt s (by simpa [optTagFree] using htext))
                  | some l =>
                      simp only [RenderHeading] at hrender
                      split at hrender
                      · cases hir : internalRender children with
                        | none => rw [hir] at hrender; simp at hrender
                        | some s' =>
                            rw [hir] at hrender
                            simp at hrender
                            subst hrender
                            exact neutralFrag_wrapStack "<h1>" "</h1>" s' ["h1"]
                              (fun σ => by simp [scanChars, scanStep, finishTag, tagNameOf])
                              (fun σ => by simp [scanChars, scanStep, finishTag, tagNameOf])
                              (ihL children hchildsize hchildren s' hir)
                      · split at hrender
                        · cases hir : internalRender children with
                          | none => rw [hir] at hrender; simp at hrender
                          | some s' =>
                              rw [hir] at hrender
                              simp at hrender
                              subst hrender
                              exact neutralFrag_wrapStack "<h2>" "</h2>" s' ["h2"]
                                (fun σ => by simp [scanChars, scanStep, finishTag, tagNameOf])
                                (fun σ => by simp [scanChars, scanStep, finishTag, tagNameOf])
                                (ihL children hchildsize hchildren s' hir)
                        · split at hrender
                          · cases hir : internalRender children with
                            | none => rw [hir] at hrender; simp at hrender
                            | some s' =>
                                rw [hir] at hrender
                                simp at hrender
                                subst hrender
                                exact neutralFrag_wrapStack "<h3>" "</h3>" s' ["h3"]
                                  (fun σ => by simp [scanChars, scanStep, finishTag, tagNameOf])
                                  (fun σ => by simp [scanChars, scanStep, finishTag, tagNameOf])
                                  (ihL children hchildsize hchildren s' hir)
                          · split at hrender
                            · cases hir : internalRender children with
                              | none => rw [hir] at hrender; simp at hrender
                              | some s' =>
                                  rw [hir] at hrender
                                  simp at hrender
                                  subst hrender
                                  exact neutralFrag_wrapStack "<h4>" "</h4>" s' ["h4"]
                                    (fun σ => by simp [scanChars, scanStep, finishTag, tagNameOf])
                                    (fun σ => by simp [scanChars, scanStep, finishTag, tagNameOf])
                                    (ihL children hchildsize hchildren s' hir)
                            · split at hrender
                              · cases hir : internalRender children with
                                | none => rw [hir] at hrender; simp at hrender
                                | some s' =>
                                    rw [hir] at hrender
                                    simp at hrender
                                    subst hrender
                                    exact neutralFrag_wrapStack "<h5>" "</h5>" s' ["h5"]
                                      (fun σ => by simp [scanChars, scanStep, finishTag, tagNameOf])
                                      (fun σ => by simp [scanChars, scanStep, finishTag, tagNameOf])
                                      (ihL children hchildsize hchildren s' hir)
                              · split at hrender
                                · cases hir : internalRender children with
                                  | none => rw [hir] at hrender; simp at hrender
                                  | some s' =>
                                      rw [hir] at hrender
                                      simp at hrender
                                      subst hrender
                                      exact neutralFrag_wrapStack "<h6>" "</h6>" s' ["h6"]
                                        (fun σ => by simp [scanChars, scanStep, finishTag, tagNameOf])
                                        (fun σ => by simp [scanChars, scanStep, finishTag, tagNameOf])
                                        (ihL children hchildsize hchildren s' hir)
                                · subst hrender
                                  exact neutralFrag_of_noLT s
                                    (strTagFree_no_lt s (by simpa [optTagFree] using htext))
                · split at hrender
                  · -- link
                    simp only [RenderLink] at hrender
                    cases hir : internalRender children with
                    | none => rw [hir] at hrender; simp at hrender
                    | some s' =>
                        rw [hir] at hrender
                        simp at hrender
                        subst hrender
                        have hu : ∀ c ∈ (url.getD "#").data, c ≠ '>' := by
                          cases url with
                          | none =>
                              intro c hc
                              have hd : ("#" : String).data = ['#'] := rfl
                              simp only [Option.getD, hd] at hc
                              simp at hc
                              subst hc
                              decide
                          | some v =>
                              simp only [Option.getD]
                              exact strTagFree_no_gt v (by simpa [optTagFree] using hurl)
                        exact neutralFrag_link (url.getD "#") s' hu
                          (ihL children hchildsize hchildren s' hir)
                  · split at hrender
                    · -- image
                      cases img with
                      | none =>
                          simp only [RenderImage] at hrender
                          simp at hrender
                          subst hrender
                          intro σ
                          simp [scanChars, scanStep]
                      | some i =>
                          simp only [RenderImage] at hrender
                          simp at hrender
                          subst hrender
                          simp only [Bool.and_eq_true] at himg
                          exact neutralFrag_img i.url i.alternativeText
                            (strTagFree_no_gt i.url himg.1)
                            (strTagFree_no_gt i.alternativeText himg.2)
                    · split at hrender
                      · -- quote
                        simp only [RenderQuote] at hrender
                        cases hir : internalRender children with
                        | none => rw [hir] at hrender; simp at hrender
                        | some s' =>
                            rw [hir] at hrender
                            simp at hrender
                            subst hrender
                            exact neutralFrag_wrapStack "<blockquote>" "</blockquote>" s' ["blockquote"]
                              (fun σ => by simp [scanChars, scanStep, finishTag, tagNameOf])
                              (fun σ => by simp [scanChars, scanStep, finishTag, tagNameOf])
                              (ihL children hchildsize hchildren s' hir)
                      · split at hrender
                        · -- code
                          simp only [RenderCode] at hrender
                          cases hir : internalRender children with
                          | none => rw [hir] at hrender; simp at hrender
                          | some s' =>
                              rw [hir] at hrender
                              simp at hrender
                              subst hrender
                              exact neutralFrag_wrapStack "<pre><code>" "</code></pre>" s' ["code", "pre"]
                                (fun σ => by simp [scanChars, scanStep, finishTag, tagNameOf])
                                (fun σ => by simp [scanChars, scanStep, finishTag, tagNameOf])
                                (ihL children hchildsize hchildren s' hir)
                        · -- unknown type
                          simp at hrender
                          subst hrender
                          intro σ
                          simp [scanChars, scanStep]
      · rintro (_ | ⟨b, rest⟩) hsize htf s hrender
        · rw [internalRender_nil] at hrender
          simp at hrender
          subst hrender
          intro σ; rfl
        · have hb' : sizeOf b ≤ n := by
            simp at hsize
            have := sizeOf_blockList_pos rest
            omega
          have hr' : sizeOf rest ≤ n := by
            simp at hsize
            have := sizeOf_block_pos b
            omega
          rw [blocksTagFree.eq_def] at htf
          simp only [Bool.and_eq_true] at htf
          rw [internalRender_cons] at hrender
          cases hb : renderBlock b with
          | none => rw [hb] at hrender; simp at hrender
          | some sb =>
              cases hr : internalRender rest with
              | none => rw [hb, hr] at hrender; simp at hrender
              | some sr =>
                  rw [hb, hr] at hrender
                  simp at hrender
                  subst hrender
                  exact neutralFrag_append sb sr (ihB b hb' htf.1 sb hb)
                    (ihL rest hr' htf.2 sr hr)

/-- C2 (counterexample): a text node whose text is the literal `</p>` renders
to exactly that string, which is not well-formed HTML with balanced tags. -/
theorem render_not_always_wellFormed :
    internalRender
        [Block.mk "text" [] (some "</p>") none none none none none none none none none]
      = some "</p>" ∧ ¬ wellFormedHTML "</p>" := by
  constructor
  · rw [internalRender_singleton]
    simp [renderBlock, Block.type, RenderText]
  · decide

/-- C2 (amended): for every input sequence whose text, url, and image payload
fields are free of `<` and `>` characters, whenever the render engine produces
a string (it does not hit a nil dereference), that string is well-formed HTML
with balanced tags. -/
theorem render_tagFree_wellFormed (bs : List Block) (h : blocksTagFree bs = true)
    (s : String) (hr : internalRender bs = some s) : wellFormedHTML s :=
  wellFormedHTML_of_neutralFrag s
    ((render_tagFree_neutral (sizeOf bs)).2 bs le_rfl h s hr)

theorem render_tagFree_wellFormed_witness :
    wellFormedHTML "<p>hi</p>" :=
  render_tagFree_wellFormed
    [Block.mk "paragraph"
        [Block.mk "text" [] (some "hi") none none none none none none none none none]
        none none none none none none none none none none]
    (by simp [blocksTagFree, blockTagFree, optTagFree, strTagFree])
    "<p>hi</p>"
    (by simp [internalRender, renderBlock, Block.type, RenderParagraph, RenderText,
      isSingleEmptyText, Block.EmptyText])
